import Mathlib

/-!
Verification development for the Creata wallet browser extension.

The development shallowly embeds the vault core of the repository:

* `src/lib/storage/index.js` — `encrypt` / `decrypt` (PBKDF2 key derivation
  plus AES-GCM authenticated encryption through WebCrypto, with the
  `base64(salt16 ++ iv12 ++ ciphertext)` blob layout), `saveData` / `getData`.
* `src/lib/keyring/index.js` — `generateWallet`, `importFromMnemonic`,
  `loadWallet`, `hasWallet`.
* `src/utils/helpers.js` — `isValidMnemonic`.
* `src/popup/components/ImportWallet.js` — the import flow (form validation
  and mnemonic cleanup).
* `src/background/index.js` — the session state machine (message handlers,
  the inactivity timeout check, the content-script port handler).

Modelling conventions: JavaScript strings are lists of characters; byte
buffers are lists of naturals below 256; the `TextEncoder` / `TextDecoder`
boundary is the codepoint-to-byte map on the single-byte range. The external
WebCrypto primitives (PBKDF2 and AES-GCM) are modelled as an ideal
deterministic key derivation together with an ideal authenticated cipher:
a ciphertext is an opaque byte encoding that authenticates the key and the
nonce it was produced under, and decryption succeeds exactly when both
match. Randomness (salt and nonce draws) is passed explicitly.
-/

namespace Creata

/-! ### Base64 (the `btoa` / `atob` builtins used by the storage module) -/

/-- The standard base64 alphabet, as used by the `btoa` / `atob` builtins. -/
def b64Chars : List Char :=
  ['A', 'B', 'C', 'D', 'E', 'F', 'G', 'H', 'I', 'J', 'K', 'L', 'M',
   'N', 'O', 'P', 'Q', 'R', 'S', 'T', 'U', 'V', 'W', 'X', 'Y', 'Z',
   'a', 'b', 'c', 'd', 'e', 'f', 'g', 'h', 'i', 'j', 'k', 'l', 'm',
   'n', 'o', 'p', 'q', 'r', 's', 't', 'u', 'v', 'w', 'x', 'y', 'z',
   '0', '1', '2', '3', '4', '5', '6', '7', '8', '9', '+', '/']

/-- Character of a six-bit group. -/
def sextetToChar (n : Nat) : Char := b64Chars.getD n 'A'

/-- Six-bit value of a base64 character (the length of the alphabet when the
character is not in it; such characters are rejected by the validity checks
in `atob`). -/
def charToSextet (c : Char) : Nat := b64Chars.indexOf c

/-- Model of the `btoa` builtin on byte lists: base64 encoding with `=`
padding, three bytes to four characters. -/
def btoa : List Nat → List Char
  | [] => []
  | [b1] =>
      [sextetToChar (b1 / 4), sextetToChar (b1 % 4 * 16), '=', '=']
  | [b1, b2] =>
      [sextetToChar (b1 / 4), sextetToChar (b1 % 4 * 16 + b2 / 16),
       sextetToChar (b2 % 16 * 4), '=']
  | b1 :: b2 :: b3 :: rest =>
      sextetToChar (b1 / 4) :: sextetToChar (b1 % 4 * 16 + b2 / 16) ::
      sextetToChar (b2 % 16 * 4 + b3 / 64) :: sextetToChar (b3 % 64) ::
      btoa rest

/-- Model of the `atob` builtin: base64 decoding, returning `none` on
malformed input (where the builtin throws). -/
def atob : List Char → Option (List Nat)
  | [] => some []
  | c1 :: c2 :: c3 :: c4 :: rest =>
      if rest = [] ∧ c3 = '=' ∧ c4 = '=' then
        if c1 ∈ b64Chars ∧ c2 ∈ b64Chars then
          some [charToSextet c1 * 4 + charToSextet c2 / 16]
        else none
      else if rest = [] ∧ c4 = '=' then
        if c1 ∈ b64Chars ∧ c2 ∈ b64Chars ∧ c3 ∈ b64Chars then
          some [charToSextet c1 * 4 + charToSextet c2 / 16,
                charToSextet c2 % 16 * 16 + charToSextet c3 / 4]
        else none
      else
        if c1 ∈ b64Chars ∧ c2 ∈ b64Chars ∧ c3 ∈ b64Chars ∧ c4 ∈ b64Chars then
          match atob rest with
          | some t =>
              some ((charToSextet c1 * 4 + charToSextet c2 / 16) ::
                    (charToSextet c2 % 16 * 16 + charToSextet c3 / 4) ::
                    (charToSextet c3 % 4 * 64 + charToSextet c4) :: t)
          | none => none
        else none
  | _ => none

/-! ### Ideal PBKDF2 / AES-GCM (the external WebCrypto primitives) -/

/-- A derived AES-GCM key. -/
structure GcmKey where
  password : List Nat
  salt : List Nat
deriving DecidableEq, Repr

/-- Model of the PBKDF2 key derivation (100000 iterations of SHA-256 in the
source): a deterministic, injective map from password bytes and salt to a
key. -/
def deriveKey (password salt : List Nat) : GcmKey := ⟨password, salt⟩

/-- A length header: a unary run of the byte 254 terminated by the byte 255
(the terminator never occurs inside the run). -/
def encLen (n : Nat) : List Nat := List.replicate n 254 ++ [255]

/-- A length-prefixed byte field. -/
def encField (f : List Nat) : List Nat := encLen f.length ++ f

/-- Reads a length header back. -/
def decLenAux : List Nat → Nat → Option (Nat × List Nat)
  | [], _ => none
  | b :: rest, acc =>
      if b = 255 then some (acc, rest)
      else if b = 254 then decLenAux rest (acc + 1)
      else none

def decLen (l : List Nat) : Option (Nat × List Nat) := decLenAux l 0

/-- Reads one length-prefixed field back. -/
def decField (l : List Nat) : Option (List Nat × List Nat) :=
  match decLen l with
  | none => none
  | some (n, rest) =>
      if n ≤ rest.length then some (rest.take n, rest.drop n) else none

/-- Ideal authenticated encryption (model of the WebCrypto AES-GCM `encrypt`
call): the ciphertext is an opaque byte string binding the key and the nonce
to the plaintext. -/
def gcmEncrypt (key : GcmKey) (iv pt : List Nat) : List Nat :=
  encField key.password ++ encField key.salt ++ encField iv ++ pt

/-- Ideal authenticated decryption (model of the WebCrypto AES-GCM `decrypt`
call): succeeds, returning the plaintext, exactly when the key and nonce
match the ones the ciphertext was produced under; any mismatch is an
authentication failure (`none`). -/
def gcmDecrypt (key : GcmKey) (iv ct : List Nat) : Option (List Nat) :=
  match decField ct with
  | none => none
  | some (p, r1) =>
    match decField r1 with
    | none => none
    | some (s, r2) =>
      match decField r2 with
      | none => none
      | some (i, pt) =>
          if p = key.password ∧ s = key.salt ∧ i = iv then some pt else none

/-! ### Text codec (the TextEncoder / TextDecoder boundary) -/

/-- Model of `TextEncoder.encode` on the single-byte range: codepoints as
bytes. -/
def textEncode (s : List Char) : List Nat := s.map Char.toNat

/-- Model of `TextDecoder.decode` on the single-byte range. -/
def textDecode (l : List Nat) : List Char := l.map Char.ofNat

/-! ### Storage-module cipher (src/lib/storage/index.js) -/

/-- Embedding of `encrypt`: derive a key from the password and a random
16-byte salt, AES-GCM-encrypt under a random 12-byte nonce, and emit
`base64(salt ++ iv ++ ciphertext)`. The random draws `salt` and `iv` are
explicit arguments. -/
def encrypt (data password : List Char) (salt iv : List Nat) : List Char :=
  let dataBuffer := textEncode data
  let passwordBuffer := textEncode password
  let key := deriveKey passwordBuffer salt
  let encryptedBuffer := gcmEncrypt key iv dataBuffer
  btoa (salt ++ iv ++ encryptedBuffer)

/-- The single error message of `decrypt`: the `catch` in the source
collapses every failure to it. -/
def decryptErrorMsg : String :=
  "Failed to decrypt data. Incorrect password or corrupted data."

/-- Embedding of `decrypt`: base64-decode, split the bytes as
`salt = slice(0,16)`, `iv = slice(16,28)`, ciphertext from 28, re-derive the
key from the stored salt and the supplied password, and
authenticated-decrypt; every failure is reported with the one
`decryptErrorMsg`. -/
def decrypt (encryptedData password : List Char) : Except String (List Char) :=
  match atob encryptedData with
  | none => .error decryptErrorMsg
  | some encryptedArray =>
    match gcmDecrypt (deriveKey (textEncode password) (encryptedArray.take 16))
        ((encryptedArray.drop 16).take 12) (encryptedArray.drop 28) with
    | some pt => .ok (textDecode pt)
    | none => .error decryptErrorMsg

/-! ### JSON (the value subset exercised by the storage records) -/

inductive JsValue where
  | str (s : List Char)
  | num (n : Nat)
deriving DecidableEq, Repr

/-- JSON string escaping of quote and backslash. -/
def escapeChars : List Char → List Char
  | [] => []
  | c :: rest =>
      if c = '"' ∨ c = '\\' then '\\' :: c :: escapeChars rest
      else c :: escapeChars rest

/-- Model of `JSON.stringify` on the value subset in play. -/
def jsonStringify : JsValue → List Char
  | .str s => '"' :: (escapeChars s ++ ['"'])
  | .num n => Nat.toDigits 10 n

/-- Parses the body of a JSON string after the opening quote; returns the
content and the remainder after the closing quote. -/
def parseStringBody : List Char → Option (List Char × List Char)
  | [] => none
  | c :: rest =>
      if c = '"' then some ([], rest)
      else if c = '\\' then
        match rest with
        | [] => none
        | e :: rest2 =>
          if e = '"' ∨ e = '\\' then
            match parseStringBody rest2 with
            | some (s, r) => some (e :: s, r)
            | none => none
          else none
      else
        match parseStringBody rest with
        | some (s, r) => some (c :: s, r)
        | none => none

def digitsToNat (l : List Char) : Nat :=
  l.foldl (fun a c => a * 10 + (c.toNat - 48)) 0

/-- Model of `JSON.parse` on the subset in play: a quoted string or a
natural number literal; anything else is a parse error (`none`), where the
builtin throws `SyntaxError`. -/
def jsonParse (s : List Char) : Option JsValue :=
  match s with
  | [] => none
  | '"' :: rest =>
      match parseStringBody rest with
      | some (content, []) => some (.str content)
      | _ => none
  | l => if l.all Char.isDigit then some (.num (digitsToNat l)) else none

/-- JavaScript falsiness of the JSON values in play (the empty string and
zero). -/
def jsFalsy : JsValue → Bool
  | .str s => s.isEmpty
  | .num n => n == 0

/-! ### Secure record store (src/lib/storage/index.js over
chrome.storage.local) -/

/-- The persisted key-value store; stored values are strings. -/
abbrev Storage := List (String × List Char)

/-- Model of `chrome.storage.local.set` for one key. -/
def storageSet (st : Storage) (key : String) (value : List Char) : Storage :=
  (key, value) :: st.filter (fun e => e.1 != key)

def missingPasswordSaveMsg : String := "Password is required for secure storage"

/-- Embedding of `saveData`: stringify, encrypt when `secure` (requiring a
password), and write the string under `key`. The salt and nonce draws of the
inner `encrypt` call are explicit. -/
def saveData (st : Storage) (key : String) (value : JsValue) (secure : Bool)
    (password : Option (List Char)) (salt iv : List Nat) : Except String Storage :=
  let dataToStore := jsonStringify value
  if secure then
    match password with
    | none => .error missingPasswordSaveMsg
    | some pw => .ok (storageSet st key (encrypt dataToStore pw salt iv))
  else .ok (storageSet st key dataToStore)

def missingPasswordGetMsg : String := "Password is required for secure retrieval"

/-- The JSON parse failure surfaced by `getData`. On the non-secure path the
source lets `JSON.parse` throw inside the storage callback (in the browser
the promise then never settles); it is modelled as a rejection — in either
reading, the call never resolves with a value. -/
def jsonParseErrorMsg : String := "Unexpected token in JSON"

/-- Embedding of `getData`: read the raw string at `key` (`none` when the
key is absent or the string empty — JavaScript falsiness), then decrypt
and/or JSON-parse according to `secure`. -/
def getData (st : Storage) (key : String) (secure : Bool)
    (password : Option (List Char)) : Except String (Option JsValue) :=
  match List.lookup key st with
  | none => .ok none
  | some data =>
    if data = [] then .ok none
    else if secure then
      match password with
      | none => .error missingPasswordGetMsg
      | some pw =>
        match decrypt data pw with
        | .error e => .error e
        | .ok decryptedData =>
          match jsonParse decryptedData with
          | some v => .ok (some v)
          | none => .error jsonParseErrorMsg
    else
      match jsonParse data with
      | some v => .ok (some v)
      | none => .error jsonParseErrorMsg

/-! ### The external cosmjs HD wallet (ideal model) -/

/-- Ideal model of `DirectSecp256k1HdWallet`: the fields the repository code
observes — the mnemonic phrase, the bech32 human-readable part option, and
the HD derivation path option. -/
structure HdWallet where
  mnemonic : List Char
  hrp : List Char
  hdPath : List Char
deriving DecidableEq, Repr

/-- The apostrophe character (codepoint 39), used in the HD path literal. -/
def apos : Char := Char.ofNat 39

/-- The bech32 human-readable part passed by the keyring: `creata`. -/
def creataHrp : List Char := ['c', 'r', 'e', 'a', 't', 'a']

/-- The fixed Evmos-compatible HD derivation path passed by both
`generateWallet` and `importFromMnemonic`: the path over coin type 60 with
hardened components marked by apostrophes. -/
def evmosHdPath : List Char :=
  ['m', '/', '4', '4', apos, '/', '6', '0', apos, '/', '0', apos, '/', '0', '/', '0']

/-- Ideal model of `DirectSecp256k1HdWallet.serialize`: an opaque injective
text encoding of the wallet, bound to the encryption password. -/
def serializeWallet (w : HdWallet) (password : List Char) : List Char :=
  jsonStringify (.str password) ++ jsonStringify (.str w.mnemonic) ++
  jsonStringify (.str w.hrp) ++ jsonStringify (.str w.hdPath)

/-- Parses one quoted string at the head, returning content and remainder. -/
def parseQuoted : List Char → Option (List Char × List Char)
  | '"' :: rest => parseStringBody rest
  | _ => none

def walletAuthErrorMsg : String := "Ciphertext decryption failed"

/-- Ideal model of `DirectSecp256k1HdWallet.deserialize`: parses the opaque
encoding and authenticates the password. -/
def deserializeWallet (serialization password : List Char) : Except String HdWallet :=
  match parseQuoted serialization with
  | none => .error walletAuthErrorMsg
  | some (p, r1) =>
    match parseQuoted r1 with
    | none => .error walletAuthErrorMsg
    | some (m, r2) =>
      match parseQuoted r2 with
      | none => .error walletAuthErrorMsg
      | some (hr, r3) =>
        match parseQuoted r3 with
        | some (hp, []) =>
            if p = password then .ok ⟨m, hr, hp⟩ else .error walletAuthErrorMsg
        | _ => .error walletAuthErrorMsg

/-! ### Whitespace and word splitting (helpers and the import flow) -/

/-- Model of the regex class for whitespace on the characters in play. -/
def isSpaceChar (c : Char) : Bool :=
  c == ' ' || c == '\t' || c == '\n' || c == '\r'

/-- Splits into maximal non-whitespace runs; `cur` is the current word,
reversed. -/
def splitWsAux : List Char → List Char → List (List Char)
  | [], cur => if cur = [] then [] else [cur.reverse]
  | c :: rest, cur =>
      if isSpaceChar c then
        if cur = [] then splitWsAux rest [] else cur.reverse :: splitWsAux rest []
      else splitWsAux rest (c :: cur)

/-- The whitespace-separated words of a string. -/
def splitWs (s : List Char) : List (List Char) := splitWsAux s []

/-- Word count of a trimmed string as computed by `split` on runs of
whitespace in JavaScript: the empty string still yields one (empty) token. -/
def jsWordCount (s : List Char) : Nat :=
  match splitWs s with
  | [] => 1
  | l => l.length

/-- The number of whitespace-separated words of a phrase. -/
def mnemonicWordCount (s : List Char) : Nat := (splitWs s).length

/-- Model of `String.prototype.trim`. -/
def trim (s : List Char) : List Char :=
  ((s.dropWhile isSpaceChar).reverse.dropWhile isSpaceChar).reverse

/-- Model of `String.prototype.toLowerCase` on the ASCII range. -/
def toLowerChar (c : Char) : Char :=
  if 65 ≤ c.toNat ∧ c.toNat ≤ 90 then Char.ofNat (c.toNat + 32) else c

/-- Model of replacing every maximal whitespace run by a single space; the
flag records whether the scan is inside a whitespace run whose single space
has already been emitted. -/
def collapseWsAux : Bool → List Char → List Char
  | _, [] => []
  | inRun, c :: rest =>
      if isSpaceChar c then
        if inRun then collapseWsAux true rest
        else ' ' :: collapseWsAux true rest
      else c :: collapseWsAux false rest

def collapseWs (s : List Char) : List Char := collapseWsAux false s

/-- The mnemonic cleanup in `handleImportWallet`: trim, lower-case, collapse
whitespace runs to single spaces. -/
def cleanMnemonic (mnemonic : List Char) : List Char :=
  collapseWs ((trim mnemonic).map toLowerChar)

/-- The BIP39 word counts accepted by `isValidMnemonic`. -/
def bip39WordCounts : List Nat := [12, 15, 18, 21, 24]

/-- Embedding of `isValidMnemonic` (src/utils/helpers.js): falsy input is
invalid; otherwise the word count of the trimmed phrase must be one of
12, 15, 18, 21, 24. -/
def isValidMnemonic (mnemonic : List Char) : Bool :=
  if mnemonic = [] then false
  else decide (jsWordCount (trim mnemonic) ∈ bip39WordCounts)

/-- Ideal model of `DirectSecp256k1HdWallet.fromMnemonic`: validates that
the phrase has a BIP39 word count and that every word is in the wordlist
(the BIP39 checksum check of the external library is abstracted), then
builds the wallet with the supplied options. -/
def fromMnemonic (wordlist : List (List Char)) (mnemonic hrp hdPath : List Char) :
    Except String HdWallet :=
  let ws := splitWs mnemonic
  if ws.length ∈ bip39WordCounts ∧ ∀ w ∈ ws, w ∈ wordlist then
    .ok ⟨mnemonic, hrp, hdPath⟩
  else .error "Invalid mnemonic format"

/-- Joins words with single spaces (phrase construction in the generator
model). -/
def joinWords : List (List Char) → List Char
  | [] => []
  | [w] => w
  | w :: ws => w ++ ' ' :: joinWords ws

/-- Ideal model of `DirectSecp256k1HdWallet.generate`: a mnemonic of exactly
`len` words drawn from the ambient randomness, with the supplied options. -/
def hdWalletGenerate (len : Nat) (hrp hdPath : List Char)
    (randomWords : List (List Char)) : HdWallet :=
  ⟨joinWords (randomWords.take len), hrp, hdPath⟩

/-! ### Keyring (src/lib/keyring/index.js) -/

def WALLET_KEY : String := "creata_wallet"

/-- Embedding of `generateWallet`: the `strength` parameter is accepted but
the word count passed to the external generator is the literal 24; the
bech32 human-readable part is `creata` and the HD path is the fixed
Evmos-compatible path. The randomness consumed by the generator is an
explicit argument. -/
def generateWallet (strength : Nat) (randomWords : List (List Char)) : HdWallet :=
  hdWalletGenerate 24 creataHrp evmosHdPath randomWords

/-- The error message of `importFromMnemonic`: all failures of the external
constructor are collapsed to it. -/
def invalidMnemonicMsg : String := "Invalid mnemonic phrase"

/-- Embedding of `importFromMnemonic`: delegate to the external constructor
with the `creata` human-readable part and the fixed HD path; any failure
becomes `invalidMnemonicMsg`. -/
def importFromMnemonic (wordlist : List (List Char)) (mnemonic : List Char) :
    Except String HdWallet :=
  match fromMnemonic wordlist mnemonic creataHrp evmosHdPath with
  | .ok w => .ok w
  | .error _ => .error invalidMnemonicMsg

/-- The single error message of `loadWallet`: the `catch` in the source
collapses every failure, including the missing-record throw, to it. -/
def loadWalletErrorMsg : String :=
  "Failed to load wallet. Incorrect password or corrupted data."

/-- Embedding of `loadWallet`: secure read of the wallet record, falsiness
check (the missing-record throw in the source), then the external
`deserialize`; every failure surfaces as the one `loadWalletErrorMsg`. -/
def loadWallet (st : Storage) (password : List Char) : Except String HdWallet :=
  match getData st WALLET_KEY true (some password) with
  | .error _ => .error loadWalletErrorMsg
  | .ok none => .error loadWalletErrorMsg
  | .ok (some serialization) =>
    if jsFalsy serialization then .error loadWalletErrorMsg
    else
      match serialization with
      | .str s =>
        match deserializeWallet s password with
        | .ok w => .ok w
        | .error _ => .error loadWalletErrorMsg
      | .num _ => .error loadWalletErrorMsg

/-- Embedding of `storeWallet` restricted to its wallet-record write: the
serialized wallet is saved as a secure record under `WALLET_KEY` (the
account records written after it are outside the claims considered here). -/
def storeWalletRecord (st : Storage) (w : HdWallet) (password : List Char)
    (salt iv : List Nat) : Except String Storage :=
  saveData st WALLET_KEY (.str (serializeWallet w password)) true (some password) salt iv

/-- Embedding of `hasWallet`: a NON-secure `getData` of the wallet record,
with every failure swallowed to `false`, and JavaScript truthiness of the
result otherwise. -/
def hasWallet (st : Storage) : Bool :=
  match getData st WALLET_KEY false none with
  | .error _ => false
  | .ok none => false
  | .ok (some v) => !(jsFalsy v)

/-! ### Import flow (src/popup/components/ImportWallet.js) -/

/-- Embedding of `handleImportWallet` up to the wallet construction: the
validations of `validateForm` (mnemonic presence, `isValidMnemonic`,
password length and confirmation), then the cleanup and the keyring import.
The `storeWallet` call after a successful import is outside the claims. -/
def importWalletFlow (wordlist : List (List Char))
    (mnemonic password confirmPassword : List Char) : Except String HdWallet :=
  if trim mnemonic = [] then .error "Recovery phrase is required"
  else if !(isValidMnemonic (trim mnemonic)) then
    .error "Invalid recovery phrase format"
  else if password = [] then .error "Password is required"
  else if password.length < 8 then
    .error "Password must be at least 8 characters long"
  else if password ≠ confirmPassword then .error "Passwords do not match"
  else importFromMnemonic wordlist (cleanMnemonic mnemonic)

/-! ### Background session state machine (src/background/index.js) -/

structure BgState where
  isUnlocked : Bool
  network : String
  lastActivity : Nat
deriving DecidableEq, Repr

/-- Session timeout in milliseconds (30 minutes). -/
def SESSION_TIMEOUT : Nat := 30 * 60 * 1000

/-- The `setInterval` period of the timeout check (one minute). -/
def checkIntervalMs : Nat := 60000

/-- Embedding of the periodic timeout check: lock when the wallet is
unlocked and the time since the last activity strictly exceeds
`SESSION_TIMEOUT`; no user action is involved. -/
def sessionCheck (now : Nat) (s : BgState) : BgState :=
  if s.isUnlocked = true ∧ SESSION_TIMEOUT < now - s.lastActivity then
    { s with isUnlocked := false }
  else s

/-- An inbound runtime message: a `type` tag plus the optional `network`
field of `SWITCH_NETWORK`. -/
structure Message where
  type : String
  network : Option String
deriving DecidableEq, Repr

/-- The response object shapes produced by the `onMessage` listener. -/
structure MsgResponse where
  success : Bool
  state : Option BgState
  error : Option String
  address : Option String
deriving DecidableEq, Repr

/-- Embedding of the `chrome.runtime.onMessage` listener: update
`lastActivity` to now, then dispatch on `message.type`. -/
def handleMessage (now : Nat) (m : Message) (s : BgState) : BgState × MsgResponse :=
  let s1 := { s with lastActivity := now }
  if m.type = "GET_STATE" then (s1, ⟨true, some s1, none, none⟩)
  else if m.type = "UNLOCK_WALLET" then
    ({ s1 with isUnlocked := true }, ⟨true, none, none, none⟩)
  else if m.type = "LOCK_WALLET" then
    ({ s1 with isUnlocked := false }, ⟨true, none, none, none⟩)
  else if m.type = "SWITCH_NETWORK" then
    match m.network with
    | some nw =>
        if nw = "mainnet" ∨ nw = "testnet" then
          ({ s1 with network := nw }, ⟨true, none, none, none⟩)
        else (s1, ⟨false, none, some "Invalid network", none⟩)
    | none => (s1, ⟨false, none, some "Invalid network", none⟩)
  else if m.type = "CONNECT_SITE" then
    (s1, ⟨true, none, none, some "creata12345..."⟩)
  else (s1, ⟨false, none, some "Unknown message type", none⟩)

/-- A message arriving on a content-script port. -/
structure PortMsg where
  type : String
deriving DecidableEq, Repr

/-- The two tagged response shapes posted back on the port. -/
inductive PortResponse where
  | accountsResponse (accounts : List String)
  | errorResponse (error : String)
deriving DecidableEq, Repr

/-- Embedding of the `chrome.runtime.onConnect` content-script port handler:
`REQUEST_ACCOUNTS` answers with the accounts list when unlocked and with the
`Wallet is locked` error otherwise; the session state (including
`lastActivity`) is left untouched. -/
def handlePortMessage (portName : String) (m : PortMsg) (s : BgState) :
    BgState × Option PortResponse :=
  if portName = "content-script" then
    if m.type = "REQUEST_ACCOUNTS" then
      if s.isUnlocked then (s, some (.accountsResponse ["creata12345..."]))
      else (s, some (.errorResponse "Wallet is locked"))
    else (s, none)
  else (s, none)

/-! ### Concrete sample inputs -/

def sampleSalt : List Nat := List.replicate 16 0
def sampleIv : List Nat := List.replicate 12 0
def sampleSalt2 : List Nat := 1 :: List.replicate 15 0
def sampleIv2 : List Nat := 1 :: List.replicate 11 0
def samplePassword : List Char := ['p', 'a', 's', 's', 'w', 'o', 'r', 'd']
def wrongPassword : List Char := ['w', 'r', 'o', 'n', 'g', 'p', 'w', 'd']
def sampleWallet : HdWallet := ⟨['a'], creataHrp, evmosHdPath⟩

/-- A 12-word phrase over a two-letter word. -/
def sampleMnemonic12 : List Char := joinWords (List.replicate 12 ['a', 'b'])

/-- A storage state holding a wallet record written exactly the way
`storeWallet` writes it (external serialize, then secure `saveData`). -/
def sampleStoreWithWallet : Storage :=
  ((storeWalletRecord [] sampleWallet samplePassword sampleSalt sampleIv).toOption).getD []

/-! ### Theorems -/

theorem charToSextet_sextetToChar : ∀ n < 64, charToSextet (sextetToChar n) = n := by
  decide

theorem sextetToChar_mem : ∀ n < 64, sextetToChar n ∈ b64Chars := by
  decide

theorem sextetToChar_ne_eq : ∀ n < 64, sextetToChar n ≠ '=' := by
  decide

/-- Decoding inverts encoding on genuine byte lists. -/
theorem atob_btoa (l : List Nat) (h : ∀ b ∈ l, b < 256) : atob (btoa l) = some l := by
  induction l using btoa.induct with
  | case1 => rfl
  | case2 b1 =>
      have hb1 : b1 < 256 := h b1 (by simp)
      have h1 : b1 / 4 < 64 := by omega
      have h2 : b1 % 4 * 16 < 64 := by omega
      simp only [btoa, atob]
      rw [if_pos (by simp),
          if_pos ⟨sextetToChar_mem _ h1, sextetToChar_mem _ h2⟩,
          charToSextet_sextetToChar _ h1, charToSextet_sextetToChar _ h2]
      have : b1 / 4 * 4 + b1 % 4 * 16 / 16 = b1 := by omega
      rw [this]
  | case3 b1 b2 =>
      have hb1 : b1 < 256 := h b1 (by simp)
      have hb2 : b2 < 256 := h b2 (by simp)
      have h1 : b1 / 4 < 64 := by omega
      have h2 : b1 % 4 * 16 + b2 / 16 < 64 := by omega
      have h3 : b2 % 16 * 4 < 64 := by omega
      simp only [btoa, atob]
      rw [if_neg (by simp [sextetToChar_ne_eq _ h3]),
          if_pos (by simp),
          if_pos ⟨sextetToChar_mem _ h1, sextetToChar_mem _ h2, sextetToChar_mem _ h3⟩,
          charToSextet_sextetToChar _ h1, charToSextet_sextetToChar _ h2,
          charToSextet_sextetToChar _ h3]
      have e1 : b1 / 4 * 4 + (b1 % 4 * 16 + b2 / 16) / 16 = b1 := by omega
      have e2 : (b1 % 4 * 16 + b2 / 16) % 16 * 16 + b2 % 16 * 4 / 4 = b2 := by omega
      rw [e1, e2]
  | case4 b1 b2 b3 rest ih =>
      have hb1 : b1 < 256 := h b1 (by simp)
      have hb2 : b2 < 256 := h b2 (by simp)
      have hb3 : b3 < 256 := h b3 (by simp)
      have h1 : b1 / 4 < 64 := by omega
      have h2 : b1 % 4 * 16 + b2 / 16 < 64 := by omega
      have h3 : b2 % 16 * 4 + b3 / 64 < 64 := by omega
      have h4 : b3 % 64 < 64 := by omega
      have hrest : ∀ b ∈ rest, b < 256 := fun b hb => h b (by simp [hb])
      simp only [btoa, atob]
      rw [if_neg (by simp [sextetToChar_ne_eq _ h3]),
          if_neg (by simp [sextetToChar_ne_eq _ h4]),
          if_pos ⟨sextetToChar_mem _ h1, sextetToChar_mem _ h2,
                  sextetToChar_mem _ h3, sextetToChar_mem _ h4⟩,
          ih hrest,
          charToSextet_sextetToChar _ h1, charToSextet_sextetToChar _ h2,
          charToSextet_sextetToChar _ h3, charToSextet_sextetToChar _ h4]
      have e1 : b1 / 4 * 4 + (b1 % 4 * 16 + b2 / 16) / 16 = b1 := by omega
      have e2 : (b1 % 4 * 16 + b2 / 16) % 16 * 16 + (b2 % 16 * 4 + b3 / 64) / 4 = b2 := by
        omega
      have e3 : (b2 % 16 * 4 + b3 / 64) % 4 * 64 + b3 % 64 = b3 := by omega
      rw [e1, e2, e3]

/-! #### Ideal-cipher field-coding lemmas -/

theorem decLenAux_spec (n : Nat) : ∀ acc rest,
    decLenAux (List.replicate n 254 ++ 255 :: rest) acc = some (acc + n, rest) := by
  induction n with
  | zero =>
      intro acc rest
      simp [decLenAux]
  | succ k ih =>
      intro acc rest
      simp only [List.replicate_succ, List.cons_append, decLenAux]
      rw [if_neg (by omega), if_pos trivial]
      have hl : (List.replicate k 254).append (255 :: rest) =
          List.replicate k 254 ++ 255 :: rest := rfl
      rw [hl, ih]
      have e : acc + 1 + k = acc + (k + 1) := by omega
      rw [e]

theorem decLen_encLen (n : Nat) (rest : List Nat) :
    decLen (encLen n ++ rest) = some (n, rest) := by
  have h := decLenAux_spec n 0 rest
  simpa [decLen, encLen, List.append_assoc] using h

theorem decField_encField (f rest : List Nat) :
    decField (encField f ++ rest) = some (f, rest) := by
  simp only [decField, encField, List.append_assoc, decLen_encLen]
  rw [if_pos (by simp)]
  rw [List.take_left, List.drop_left]

theorem gcmDecrypt_gcmEncrypt (key : GcmKey) (iv pt : List Nat) :
    gcmDecrypt key iv (gcmEncrypt key iv pt) = some pt := by
  simp [gcmEncrypt, gcmDecrypt, List.append_assoc, decField_encField]

theorem gcmDecrypt_mismatch (key1 key2 : GcmKey) (iv1 iv2 pt : List Nat)
    (h : key1.password ≠ key2.password ∨ key1.salt ≠ key2.salt ∨ iv1 ≠ iv2) :
    gcmDecrypt key2 iv2 (gcmEncrypt key1 iv1 pt) = none := by
  simp only [gcmEncrypt, gcmDecrypt, List.append_assoc, decField_encField]
  rw [if_neg]
  rintro ⟨h1, h2, h3⟩
  rcases h with hh | hh | hh <;> exact hh (by simp_all)

theorem encField_bytes_lt (f : List Nat) (hf : ∀ b ∈ f, b < 256) :
    ∀ b ∈ encField f, b < 256 := by
  intro b hb
  simp only [encField, encLen, List.append_assoc, List.singleton_append,
    List.mem_append, List.mem_cons] at hb
  rcases hb with h | h | h
  · rcases List.eq_of_mem_replicate h with rfl
    omega
  · omega
  · exact hf b h

theorem gcmEncrypt_bytes_lt (key : GcmKey) (iv pt : List Nat)
    (hp : ∀ b ∈ key.password, b < 256) (hs : ∀ b ∈ key.salt, b < 256)
    (hi : ∀ b ∈ iv, b < 256) (hpt : ∀ b ∈ pt, b < 256) :
    ∀ b ∈ gcmEncrypt key iv pt, b < 256 := by
  intro b hb
  simp only [gcmEncrypt, List.mem_append] at hb
  rcases hb with ((h | h) | h) | h
  · exact encField_bytes_lt _ hp b h
  · exact encField_bytes_lt _ hs b h
  · exact encField_bytes_lt _ hi b h
  · exact hpt b h

/-! #### Text codec lemmas -/

theorem textDecode_textEncode (s : List Char) : textDecode (textEncode s) = s := by
  induction s with
  | nil => rfl
  | cons c t ih => simp [textDecode, textEncode, Char.ofNat_toNat] at ih ⊢; exact ih

theorem textEncode_inj (a b : List Char) (h : textEncode a = textEncode b) : a = b := by
  have h2 := congrArg textDecode h
  rwa [textDecode_textEncode, textDecode_textEncode] at h2

theorem textEncode_bytes_lt (s : List Char) (h : ∀ c ∈ s, c.toNat < 256) :
    ∀ b ∈ textEncode s, b < 256 := by
  intro b hb
  simp only [textEncode, List.mem_map] at hb
  obtain ⟨c, hc, rfl⟩ := hb
  exact h c hc

/-! #### Storage-cipher layout lemmas -/

theorem atob_encrypt (data password : List Char) (salt iv : List Nat)
    (hsalt : ∀ b ∈ salt, b < 256) (hiv : ∀ b ∈ iv, b < 256)
    (hdata : ∀ c ∈ data, c.toNat < 256) (hpw : ∀ c ∈ password, c.toNat < 256) :
    atob (encrypt data password salt iv) =
      some (salt ++ iv ++
        gcmEncrypt (deriveKey (textEncode password) salt) iv (textEncode data)) := by
  unfold encrypt
  apply atob_btoa
  intro b hb
  simp only [List.mem_append] at hb
  rcases hb with (h | h) | h
  · exact hsalt b h
  · exact hiv b h
  · exact gcmEncrypt_bytes_lt _ _ _ (textEncode_bytes_lt _ hpw) hsalt hiv
      (textEncode_bytes_lt _ hdata) b h

theorem slice_layout (salt iv ct : List Nat) (hs : salt.length = 16)
    (hi : iv.length = 12) :
    (salt ++ iv ++ ct).take 16 = salt ∧
    ((salt ++ iv ++ ct).drop 16).take 12 = iv ∧
    (salt ++ iv ++ ct).drop 28 = ct := by
  have hdrop16 : (salt ++ iv ++ ct).drop 16 = iv ++ ct := by
    rw [List.append_assoc, ← hs, List.drop_left]
  refine ⟨?_, ?_, ?_⟩
  · rw [List.append_assoc, ← hs, List.take_left]
  · rw [hdrop16, ← hi, List.take_left]
  · have h28 : (28 : Nat) = 16 + 12 := by omega
    rw [h28, ← List.drop_drop, hdrop16, ← hi, List.drop_left]

theorem decrypt_error_unique (blob pw : List Char) (e : String)
    (h : decrypt blob pw = .error e) : e = decryptErrorMsg := by
  unfold decrypt at h
  split at h
  · exact (Except.error.inj h).symm
  · split at h
    · exact absurd h (by simp)
    · exact (Except.error.inj h).symm

/-- C1: for every plaintext string and password, decrypting the result of
encrypting with the same password recovers exactly the plaintext: the
encryptor emits `base64(salt16 ++ iv12 ++ ciphertext)`, and the decryptor
re-parses that layout, re-derives the key from the stored salt, and
authenticated-decrypts back to the plaintext. The fresh random salt and
nonce are explicit arguments with their source lengths (16 and 12 bytes). -/
theorem c1_decrypt_encrypt_roundtrip (data password : List Char) (salt iv : List Nat)
    (hslen : salt.length = 16) (hilen : iv.length = 12)
    (hsalt : ∀ b ∈ salt, b < 256) (hiv : ∀ b ∈ iv, b < 256)
    (hdata : ∀ c ∈ data, c.toNat < 256) (hpw : ∀ c ∈ password, c.toNat < 256) :
    decrypt (encrypt data password salt iv) password = .ok data ∧
    atob (encrypt data password salt iv) =
      some (salt ++ iv ++
        gcmEncrypt (deriveKey (textEncode password) salt) iv (textEncode data)) := by
  have hatob := atob_encrypt data password salt iv hsalt hiv hdata hpw
  refine ⟨?_, hatob⟩
  obtain ⟨h1, h2, h3⟩ := slice_layout salt iv
    (gcmEncrypt (deriveKey (textEncode password) salt) iv (textEncode data)) hslen hilen
  unfold decrypt
  rw [hatob]
  simp only [h1, h2, h3, gcmDecrypt_gcmEncrypt, textDecode_textEncode]

/-- Witness for C1 at a concrete plaintext, password, salt and nonce. -/
theorem c1_roundtrip_witness :
    decrypt (encrypt ['h', 'i'] samplePassword sampleSalt sampleIv) samplePassword =
      .ok ['h', 'i'] :=
  (c1_decrypt_encrypt_roundtrip ['h', 'i'] samplePassword sampleSalt sampleIv
    (by decide) (by decide) (by decide) (by decide) (by decide) (by decide)).1

/-- Decrypting a freshly produced blob under a different password always
fails with the collapsed error message. -/
theorem decrypt_encrypt_wrong_password (data password wrongPw : List Char)
    (salt iv : List Nat) (hne : wrongPw ≠ password)
    (hslen : salt.length = 16) (hilen : iv.length = 12)
    (hsalt : ∀ b ∈ salt, b < 256) (hiv : ∀ b ∈ iv, b < 256)
    (hdata : ∀ c ∈ data, c.toNat < 256) (hpw : ∀ c ∈ password, c.toNat < 256) :
    decrypt (encrypt data password salt iv) wrongPw = .error decryptErrorMsg := by
  have hatob := atob_encrypt data password salt iv hsalt hiv hdata hpw
  obtain ⟨h1, h2, h3⟩ := slice_layout salt iv
    (gcmEncrypt (deriveKey (textEncode password) salt) iv (textEncode data)) hslen hilen
  have hkey : textEncode password ≠ textEncode wrongPw := by
    intro hcontra
    exact hne (textEncode_inj _ _ hcontra.symm)
  unfold decrypt
  rw [hatob]
  simp only [h1, h2, h3]
  rw [gcmDecrypt_mismatch _ _ _ _ _ (by left; simpa [deriveKey] using hkey)]

/-- C2: decrypting a blob produced under password W with any password
distinct from W fails with the authentication error and never returns a
plaintext; moreover every failure of `decrypt` — wrong password, corrupted
or truncated blob alike — carries the one indistinguishable error message. -/
theorem c2_wrong_password_fails (data password wrongPw : List Char) (salt iv : List Nat)
    (hne : wrongPw ≠ password)
    (hslen : salt.length = 16) (hilen : iv.length = 12)
    (hsalt : ∀ b ∈ salt, b < 256) (hiv : ∀ b ∈ iv, b < 256)
    (hdata : ∀ c ∈ data, c.toNat < 256) (hpw : ∀ c ∈ password, c.toNat < 256) :
    decrypt (encrypt data password salt iv) wrongPw = .error decryptErrorMsg ∧
    ∀ blob pw e, decrypt blob pw = .error e → e = decryptErrorMsg :=
  ⟨decrypt_encrypt_wrong_password data password wrongPw salt iv hne hslen hilen
    hsalt hiv hdata hpw, decrypt_error_unique⟩

/-- Witness for C2 at a concrete blob and wrong password. -/
theorem c2_wrong_password_witness :
    decrypt (encrypt ['h', 'i'] samplePassword sampleSalt sampleIv) wrongPassword =
      .error decryptErrorMsg :=
  (c2_wrong_password_fails ['h', 'i'] samplePassword wrongPassword sampleSalt sampleIv
    (by decide) (by decide) (by decide) (by decide) (by decide) (by decide) (by decide)).1

/-- C6: two encryptions of the same plaintext under the same password with
distinct fresh salt and nonce draws yield blobs whose parsed 16-byte salts,
12-byte nonces and ciphertext bytes all differ; in particular the two
serialized blobs are distinct, so encryption is never deterministic for
repeated inputs. -/
theorem c6_encrypt_nondeterministic (data password : List Char) (s1 i1 s2 i2 : List Nat)
    (hs : s1 ≠ s2) (hi : i1 ≠ i2)
    (hs1 : s1.length = 16) (hs2 : s2.length = 16)
    (hi1 : i1.length = 12) (hi2 : i2.length = 12)
    (hbs1 : ∀ b ∈ s1, b < 256) (hbs2 : ∀ b ∈ s2, b < 256)
    (hbi1 : ∀ b ∈ i1, b < 256) (hbi2 : ∀ b ∈ i2, b < 256)
    (hdata : ∀ c ∈ data, c.toNat < 256) (hpw : ∀ c ∈ password, c.toNat < 256) :
    atob (encrypt data password s1 i1) =
      some (s1 ++ i1 ++
        gcmEncrypt (deriveKey (textEncode password) s1) i1 (textEncode data)) ∧
    atob (encrypt data password s2 i2) =
      some (s2 ++ i2 ++
        gcmEncrypt (deriveKey (textEncode password) s2) i2 (textEncode data)) ∧
    gcmEncrypt (deriveKey (textEncode password) s1) i1 (textEncode data) ≠
      gcmEncrypt (deriveKey (textEncode password) s2) i2 (textEncode data) ∧
    encrypt data password s1 i1 ≠ encrypt data password s2 i2 := by
  have hatob1 := atob_encrypt data password s1 i1 hbs1 hbi1 hdata hpw
  have hatob2 := atob_encrypt data password s2 i2 hbs2 hbi2 hdata hpw
  have hct : gcmEncrypt (deriveKey (textEncode password) s1) i1 (textEncode data) ≠
      gcmEncrypt (deriveKey (textEncode password) s2) i2 (textEncode data) := by
    intro heq
    simp only [gcmEncrypt, deriveKey, List.append_assoc] at heq
    have hrest := List.append_cancel_left heq
    have hfields := congrArg decField hrest
    rw [decField_encField, decField_encField] at hfields
    exact hs (congrArg Prod.fst (Option.some.inj hfields))
  refine ⟨hatob1, hatob2, hct, ?_⟩
  intro heq
  have hsame := congrArg atob heq
  rw [hatob1, hatob2] at hsame
  have hlists := Option.some.inj hsame
  have htake := congrArg (List.take 16) hlists
  obtain ⟨ht1, _, _⟩ := slice_layout s1 i1 _ hs1 hi1
  obtain ⟨ht2, _, _⟩ := slice_layout s2 i2 _ hs2 hi2
  rw [ht1, ht2] at htake
  exact hs htake

/-- Witness for C6 at concrete distinct salt and nonce draws. -/
theorem c6_nondeterminism_witness :
    encrypt ['h', 'i'] samplePassword sampleSalt sampleIv ≠
      encrypt ['h', 'i'] samplePassword sampleSalt2 sampleIv2 :=
  (c6_encrypt_nondeterministic ['h', 'i'] samplePassword sampleSalt sampleIv
    sampleSalt2 sampleIv2 (by decide) (by decide) (by decide) (by decide) (by decide)
    (by decide) (by decide) (by decide) (by decide) (by decide) (by decide)
    (by decide)).2.2.2


/-! #### Session state machine: C3, C7, C9 -/

/-- C3: when the periodic check (whose interval, one minute, is at most 60
seconds) fires on an unlocked session, the state transitions to Locked with
no user action if the time since the last activity strictly exceeds the
30-minute threshold, and remains Unlocked if the last activity is now. -/
theorem c3_session_timeout (s : BgState) (now : Nat) (hu : s.isUnlocked = true) :
    (SESSION_TIMEOUT < now - s.lastActivity → (sessionCheck now s).isUnlocked = false) ∧
    (s.lastActivity = now → (sessionCheck now s).isUnlocked = true) ∧
    checkIntervalMs ≤ 60000 := by
  refine ⟨fun h => ?_, fun h => ?_, by norm_num [checkIntervalMs]⟩
  · simp [sessionCheck, hu, h]
  · rw [sessionCheck, if_neg]
    · exact hu
    · rintro ⟨-, hlt⟩
      rw [h, Nat.sub_self] at hlt
      exact absurd hlt (by simp)

/-- Witness for C3: an expired session locks; a fresh activity stays
unlocked. -/
theorem c3_session_timeout_witness :
    (sessionCheck (SESSION_TIMEOUT + 1) ⟨true, "mainnet", 0⟩).isUnlocked = false ∧
    (sessionCheck 7 ⟨true, "mainnet", 7⟩).isUnlocked = true :=
  ⟨(c3_session_timeout ⟨true, "mainnet", 0⟩ (SESSION_TIMEOUT + 1) rfl).1 (by decide),
   (c3_session_timeout ⟨true, "mainnet", 7⟩ 7 rfl).2.1 rfl⟩

/-- C9: a `REQUEST_ACCOUNTS` message on the content-script port is answered
with the accounts list when the session is unlocked and with the
`Wallet is locked` error (and no accounts) when it is locked. -/
theorem c9_request_accounts (s : BgState) :
    handlePortMessage "content-script" ⟨"REQUEST_ACCOUNTS"⟩ s =
      (s, some (if s.isUnlocked then
            PortResponse.accountsResponse ["creata12345..."]
          else PortResponse.errorResponse "Wallet is locked")) := by
  rw [handlePortMessage, if_pos rfl, if_pos rfl]
  by_cases h : s.isUnlocked <;> simp [h]

/-- C7 counterexample: a `REQUEST_ACCOUNTS` request arriving on the
content-script port at current time 5 leaves `lastActivity` at 0 — the port
handler never updates the activity timestamp, refuting the claim that every
inbound privileged request does. -/
theorem c7_counterexample_port_request :
    (handlePortMessage "content-script" ⟨"REQUEST_ACCOUNTS"⟩
        ⟨true, "mainnet", 0⟩).1.lastActivity = 0 ∧ (0 : Nat) ≠ 5 :=
  ⟨rfl, by decide⟩

/-- C7 amended: every inbound RUNTIME message (GET_STATE, UNLOCK_WALLET,
LOCK_WALLET, SWITCH_NETWORK, CONNECT_SITE and unknown types) sets
`lastActivity` to the current time whether or not it is granted, but
page-to-background port requests such as REQUEST_ACCOUNTS leave the session
state, including `lastActivity`, unchanged. -/
theorem c7_amended_activity_updates :
    (∀ now m s, ((handleMessage now m s).1).lastActivity = now) ∧
    (∀ portName m s, (handlePortMessage portName m s).1 = s) := by
  constructor
  · intro now m s
    simp only [handleMessage]
    repeat' split
    all_goals rfl
  · intro portName m s
    simp only [handlePortMessage]
    repeat' split
    all_goals rfl

/-! #### Keyring storage: C4, C5 -/

theorem btoa_ne_nil (l : List Nat) (h : l ≠ []) : btoa l ≠ [] := by
  match l with
  | [] => exact absurd rfl h
  | [b1] => simp [btoa]
  | [b1, b2] => simp [btoa]
  | b1 :: b2 :: b3 :: rest => simp [btoa]

/-- Any failure of a secure `getData` read of a record written by a secure
`saveData` under a different password carries `decryptErrorMsg`; the
`loadWallet` wrapper then collapses it. -/
theorem loadWallet_wrong_password (st0 : Storage) (w : HdWallet)
    (storedPw password : List Char) (salt iv : List Nat)
    (hne : password ≠ storedPw)
    (hslen : salt.length = 16) (hilen : iv.length = 12)
    (hsalt : ∀ b ∈ salt, b < 256) (hiv : ∀ b ∈ iv, b < 256)
    (hdata : ∀ c ∈ jsonStringify (.str (serializeWallet w storedPw)), c.toNat < 256)
    (hpw : ∀ c ∈ storedPw, c.toNat < 256) :
    ∀ st, storeWalletRecord st0 w storedPw salt iv = .ok st →
      loadWallet st password = .error loadWalletErrorMsg := by
  intro st hstore
  simp only [storeWalletRecord, saveData, if_true] at hstore
  have hst := Except.ok.inj hstore
  subst hst
  have hblob : List.lookup WALLET_KEY
      (storageSet st0 WALLET_KEY
        (encrypt (jsonStringify (.str (serializeWallet w storedPw))) storedPw salt iv)) =
      some (encrypt (jsonStringify (.str (serializeWallet w storedPw))) storedPw salt iv) := by
    simp [storageSet, List.lookup]
  have hne2 : encrypt (jsonStringify (.str (serializeWallet w storedPw))) storedPw salt iv ≠
      [] := by
    apply btoa_ne_nil
    intro hnil
    have hlen := congrArg List.length hnil
    rw [List.length_append, List.length_append, hslen] at hlen
    simp only [List.length_nil] at hlen
    omega
  have hdec : decrypt
      (encrypt (jsonStringify (.str (serializeWallet w storedPw))) storedPw salt iv)
      password = .error decryptErrorMsg :=
    decrypt_encrypt_wrong_password _ _ _ _ _ hne hslen hilen hsalt hiv hdata hpw
  have hget : getData
      (storageSet st0 WALLET_KEY
        (encrypt (jsonStringify (.str (serializeWallet w storedPw))) storedPw salt iv))
      WALLET_KEY true (some password) = .error decryptErrorMsg := by
    simp [getData, hblob, hne2, hdec]
  rw [loadWallet, hget]

/-- C4 counterexample: with no wallet record in storage, and with a wallet
record stored under `samplePassword` but read with `wrongPassword`,
`loadWallet` fails with the SAME generic error in both cases; the caller
cannot distinguish the missing-vault case from the wrong-password case, and
neither a `VaultUnavailableError` nor a distinct `AuthenticationError` is
surfaced. -/
theorem c4_counterexample_indistinguishable :
    loadWallet [] samplePassword = .error loadWalletErrorMsg ∧
    (List.lookup WALLET_KEY sampleStoreWithWallet).isSome = true ∧
    loadWallet sampleStoreWithWallet wrongPassword = .error loadWalletErrorMsg :=
  ⟨rfl, rfl, rfl⟩

/-- C4 amended: `loadWallet` does fail when no wallet record exists and does
fail when the record exists but the password is wrong, but both failures are
reported with the SAME generic error message
(`Failed to load wallet. Incorrect password or corrupted data.`) — the
source wraps the missing-record throw and the propagated authentication
failure in one catch — so the two cases are NOT distinguishable by the
caller. -/
theorem c4_amended_load_failures :
    (∀ st password, List.lookup WALLET_KEY st = none →
      loadWallet st password = .error loadWalletErrorMsg) ∧
    (∀ st0 w storedPw password salt iv,
      password ≠ storedPw →
      salt.length = 16 → iv.length = 12 →
      (∀ b ∈ salt, b < 256) → (∀ b ∈ iv, b < 256) →
      (∀ c ∈ jsonStringify (.str (serializeWallet w storedPw)), c.toNat < 256) →
      (∀ c ∈ storedPw, c.toNat < 256) →
      ∀ st, storeWalletRecord st0 w storedPw salt iv = .ok st →
        loadWallet st password = .error loadWalletErrorMsg) := by
  constructor
  · intro st password hmissing
    rw [loadWallet, getData, hmissing]
  · intro st0 w storedPw password salt iv hne hslen hilen hsalt hiv hdata hpw st hstore
    exact loadWallet_wrong_password st0 w storedPw password salt iv hne hslen hilen
      hsalt hiv hdata hpw st hstore

/-- Witness for C4 amended at concrete storage states. -/
theorem c4_amended_witness :
    loadWallet [⟨"other_key", ['x']⟩] samplePassword = .error loadWalletErrorMsg ∧
    loadWallet sampleStoreWithWallet wrongPassword = .error loadWalletErrorMsg :=
  ⟨c4_amended_load_failures.1 [⟨"other_key", ['x']⟩] samplePassword rfl,
   c4_amended_load_failures.2 [] sampleWallet samplePassword wrongPassword
     sampleSalt sampleIv (by decide) (by decide) (by decide) (by decide) (by decide)
     (by decide) (by decide) sampleStoreWithWallet rfl⟩

/-- C5 (code bug): `hasWallet` never throws and returns `false` when no
wallet record exists, but it does NOT return `true` when one does: it reads
the record with `secure = false`, so `getData` attempts `JSON.parse` on the
base64 ciphertext blob, the parse fails, and the failure is swallowed to
`false`. The first conjunct shows the record is present; the others evaluate
the code at the failing input and at the empty store. -/
theorem c5_hasWallet_code_bug :
    (List.lookup WALLET_KEY sampleStoreWithWallet).isSome = true ∧
    hasWallet sampleStoreWithWallet = false ∧
    hasWallet [] = false ∧
    (∀ st, List.lookup WALLET_KEY st = none → hasWallet st = false) := by
  refine ⟨rfl, rfl, rfl, ?_⟩
  intro st hmissing
  rw [hasWallet, getData, hmissing]

/-- Witness for C5, applying the general missing-record part at a concrete
store. -/
theorem c5_hasWallet_witness : hasWallet [⟨"other_key", ['x']⟩] = false :=
  c5_hasWallet_code_bug.2.2.2 [⟨"other_key", ['x']⟩] rfl


/-! #### Word-splitting lemmas -/

theorem splitWsAux_nonspace_append (w : List Char) :
    ∀ (t cur : List Char), (∀ c ∈ w, isSpaceChar c = false) →
      splitWsAux (w ++ t) cur = splitWsAux t (w.reverse ++ cur) := by
  induction w with
  | nil => intro t cur _; rfl
  | cons c w ih =>
      intro t cur hw
      have hc : isSpaceChar c = false := hw c (by simp)
      simp only [List.cons_append, splitWsAux, hc, Bool.false_eq_true, if_false,
        List.reverse_cons, List.append_assoc, List.singleton_append]
      exact ih t (c :: cur) (fun x hx => hw x (by simp [hx]))

theorem splitWsAux_allspace (u : List Char) :
    ∀ cur, (∀ c ∈ u, isSpaceChar c = true) →
      splitWsAux u cur = if cur = [] then [] else [cur.reverse] := by
  induction u with
  | nil => intro cur _; rfl
  | cons c u ih =>
      intro cur hu
      have hc : isSpaceChar c = true := hu c (by simp)
      have hrec : splitWsAux u [] = [] := by
        rw [ih [] (fun x hx => hu x (by simp [hx]))]
        rfl
      by_cases hcur : cur = [] <;> simp [splitWsAux, hc, hcur, hrec]

theorem splitWs_dropWhile (s : List Char) :
    splitWsAux (s.dropWhile isSpaceChar) [] = splitWsAux s [] := by
  induction s with
  | nil => rfl
  | cons c t ih =>
      by_cases hc : isSpaceChar c = true
      · rw [List.dropWhile_cons_of_pos hc, ih]
        simp [splitWsAux, hc]
      · rw [List.dropWhile_cons_of_neg (by simp [hc])]

theorem splitWsAux_append_spaces (s : List Char) :
    ∀ (u cur : List Char), (∀ c ∈ u, isSpaceChar c = true) →
      splitWsAux (s ++ u) cur = splitWsAux s cur := by
  induction s with
  | nil =>
      intro u cur hu
      rw [List.nil_append, splitWsAux_allspace u cur hu]
      rfl
  | cons c t ih =>
      intro u cur hu
      by_cases hc : isSpaceChar c = true
      · by_cases hcur : cur = [] <;>
          simp [List.cons_append, splitWsAux, hc, hcur, ih u [] hu]
      · simp only [List.cons_append, splitWsAux, hc, Bool.false_eq_true, if_false]
        exact ih u (c :: cur) hu

theorem splitWs_trim (s : List Char) : splitWs (trim s) = splitWs s := by
  unfold trim splitWs
  have hspaces : ∀ c ∈ ((s.dropWhile isSpaceChar).reverse.takeWhile isSpaceChar).reverse,
      isSpaceChar c = true := by
    intro c hc
    rw [List.mem_reverse] at hc
    exact List.mem_takeWhile_imp hc
  have hback : ((s.dropWhile isSpaceChar).reverse.dropWhile isSpaceChar).reverse ++
      ((s.dropWhile isSpaceChar).reverse.takeWhile isSpaceChar).reverse =
      s.dropWhile isSpaceChar := by
    have h := List.takeWhile_append_dropWhile (p := isSpaceChar)
      (l := (s.dropWhile isSpaceChar).reverse)
    have h2 := congrArg List.reverse h
    rw [List.reverse_append, List.reverse_reverse] at h2
    exact h2
  calc splitWsAux ((s.dropWhile isSpaceChar).reverse.dropWhile isSpaceChar).reverse []
      = splitWsAux (((s.dropWhile isSpaceChar).reverse.dropWhile isSpaceChar).reverse ++
          ((s.dropWhile isSpaceChar).reverse.takeWhile isSpaceChar).reverse) [] :=
        (splitWsAux_append_spaces _ _ _ hspaces).symm
    _ = splitWsAux (s.dropWhile isSpaceChar) [] := by rw [hback]
    _ = splitWsAux s [] := splitWs_dropWhile s

theorem lower_not_space : ∀ n < 123, 97 ≤ n → isSpaceChar (Char.ofNat n) = false := by
  decide

theorem isSpaceChar_toLowerChar (c : Char) :
    isSpaceChar (toLowerChar c) = isSpaceChar c := by
  unfold toLowerChar
  split
  · rename_i h
    have hc1 : isSpaceChar c = false := by
      unfold isSpaceChar
      have h1 : c ≠ ' ' := fun he => by rw [he] at h; exact absurd h.1 (by decide)
      have h2 : c ≠ '\t' := fun he => by rw [he] at h; exact absurd h.1 (by decide)
      have h3 : c ≠ '\n' := fun he => by rw [he] at h; exact absurd h.1 (by decide)
      have h4 : c ≠ '\r' := fun he => by rw [he] at h; exact absurd h.1 (by decide)
      simp [h1, h2, h3, h4]
    rw [hc1]
    exact lower_not_space (c.toNat + 32) (by omega) (by omega)
  · rfl

theorem splitWsAux_map_lower (s : List Char) :
    ∀ cur, splitWsAux (s.map toLowerChar) (cur.map toLowerChar) =
      (splitWsAux s cur).map (List.map toLowerChar) := by
  induction s with
  | nil =>
      intro cur
      by_cases hcur : cur = []
      · subst hcur; rfl
      · have hm : cur.map toLowerChar ≠ [] := by
          simpa using hcur
        simp only [List.map_nil, splitWsAux, if_neg hm, if_neg hcur]
        simp [List.map_reverse]
  | cons c t ih =>
      intro cur
      simp only [List.map_cons, splitWsAux, isSpaceChar_toLowerChar]
      by_cases hc : isSpaceChar c = true
      · by_cases hcur : cur = []
        · subst hcur
          have hnil := ih []
          simp only [List.map_nil] at hnil
          simpa [hc] using hnil
        · have hm : cur.map toLowerChar ≠ [] := by simpa using hcur
          simp only [hc, if_true, if_neg hm, if_neg hcur, List.map_cons,
            List.map_reverse]
          have hnil := ih []
          simp only [List.map_nil] at hnil
          rw [hnil]
      · simp only [hc, Bool.false_eq_true, if_false]
        exact ih (c :: cur)

theorem splitWsAux_collapse (s : List Char) :
    (∀ cur, splitWsAux (collapseWsAux false s) cur = splitWsAux s cur) ∧
    splitWsAux (collapseWsAux true s) [] = splitWsAux s [] := by
  induction s with
  | nil => exact ⟨fun cur => rfl, rfl⟩
  | cons c t ih =>
      obtain ⟨ihF, ihT⟩ := ih
      by_cases hc : isSpaceChar c = true
      · constructor
        · intro cur
          simp only [collapseWsAux, hc, if_true, Bool.false_eq_true, if_false]
          by_cases hcur : cur = [] <;>
            simp [splitWsAux, hc, hcur, ihT, show isSpaceChar ' ' = true from rfl]
        · simp only [collapseWsAux, hc, if_true]
          rw [ihT]
          simp [splitWsAux, hc]
      · constructor
        · intro cur
          simp only [collapseWsAux, hc, Bool.false_eq_true, if_false, splitWsAux]
          exact ihF (c :: cur)
        · simp only [collapseWsAux, hc, Bool.false_eq_true, if_false, splitWsAux]
          exact ihF [c]

theorem splitWs_cleanMnemonic (m : List Char) :
    splitWs (cleanMnemonic m) = (splitWs m).map (List.map toLowerChar) := by
  unfold cleanMnemonic collapseWs splitWs
  rw [(splitWsAux_collapse ((trim m).map toLowerChar)).1 []]
  have h := splitWsAux_map_lower (trim m) []
  simp only [List.map_nil] at h
  rw [h]
  have h2 := splitWs_trim m
  unfold splitWs at h2
  rw [h2]

theorem splitWs_joinWords (ws : List (List Char)) :
    (∀ w ∈ ws, w ≠ [] ∧ ∀ c ∈ w, isSpaceChar c = false) →
    splitWs (joinWords ws) = ws := by
  induction ws with
  | nil => intro _; rfl
  | cons w ws ih =>
      intro h
      obtain ⟨hw, hwc⟩ := h w (by simp)
      have hwr : w.reverse ≠ [] := by simpa using hw
      cases ws with
      | nil =>
          show splitWsAux (joinWords [w]) [] = [w]
          have h1 : joinWords [w] = w ++ [] := by simp [joinWords]
          rw [h1, splitWsAux_nonspace_append w [] [] hwc, List.append_nil]
          simp only [splitWsAux]
          rw [if_neg hwr, List.reverse_reverse]
      | cons w2 ws2 =>
          show splitWsAux (w ++ ' ' :: joinWords (w2 :: ws2)) [] = w :: w2 :: ws2
          rw [splitWsAux_nonspace_append w _ [] hwc, List.append_nil]
          have hsp : isSpaceChar ' ' = true := rfl
          simp only [splitWsAux, hsp, if_true, if_neg hwr, List.reverse_reverse]
          congr 1
          exact ih (fun x hx => h x (by simp [hx]))

theorem jsWordCount_spec (s : List Char) :
    jsWordCount s = if splitWs s = [] then 1 else (splitWs s).length := by
  unfold jsWordCount
  cases h : splitWs s with
  | nil => simp
  | cons a l => simp

/-! #### Keyring mnemonic handling: C8, C10 -/

/-- C8: the wallet-import operation normalizes the phrase (trim, lowercase,
single-space-collapse — the normalized phrase is the mnemonic of the
resulting wallet), rejects every phrase whose word count is not one of
12, 15, 18, 21, 24 (the keyring call itself failing with the
invalid-mnemonic error), and accepts phrases of a valid word count whose
normalized words belong to the wordlist, producing a wallet with the same
fixed HD derivation path that `generateWallet` uses. -/
theorem c8_import_mnemonic (wordlist : List (List Char)) (m password : List Char) :
    (mnemonicWordCount m ∉ bip39WordCounts →
      importFromMnemonic wordlist m = .error invalidMnemonicMsg ∧
      ∃ e, importWalletFlow wordlist m password password = .error e) ∧
    (mnemonicWordCount m ∈ bip39WordCounts →
      (∀ w ∈ (splitWs m).map (List.map toLowerChar), w ∈ wordlist) →
      8 ≤ password.length →
      importWalletFlow wordlist m password password =
        .ok ⟨cleanMnemonic m, creataHrp, evmosHdPath⟩ ∧
      ∀ strength randomWords,
        (generateWallet strength randomWords).hdPath = evmosHdPath) := by
  constructor
  · intro hno
    constructor
    · simp only [importFromMnemonic, fromMnemonic]
      rw [if_neg]
      · rintro ⟨hlen, -⟩
        exact hno hlen
    · by_cases htrim : trim m = []
      · exact ⟨"Recovery phrase is required", by rw [importWalletFlow, if_pos htrim]⟩
      · refine ⟨"Invalid recovery phrase format", ?_⟩
        have hval : isValidMnemonic (trim m) = false := by
          rw [isValidMnemonic, if_neg htrim, jsWordCount_spec]
          have hsp : splitWs (trim (trim m)) = splitWs m := by
            rw [splitWs_trim, splitWs_trim]
          rw [hsp]
          by_cases h0 : splitWs m = []
          · rw [if_pos h0]; decide
          · rw [if_neg h0]
            simpa [mnemonicWordCount] using hno
        rw [importWalletFlow, if_neg htrim, if_pos (by simp [hval])]
  · intro hin hwl hpwlen
    have hne0 : splitWs m ≠ [] := by
      intro h0
      rw [mnemonicWordCount, h0] at hin
      exact absurd hin (by decide)
    have htrim : trim m ≠ [] := by
      intro htrim0
      have hempty : splitWs m = [] := by
        rw [← splitWs_trim, htrim0]
        rfl
      exact hne0 hempty
    have hval : isValidMnemonic (trim m) = true := by
      rw [isValidMnemonic, if_neg htrim, jsWordCount_spec]
      have hsp : splitWs (trim (trim m)) = splitWs m := by
        rw [splitWs_trim, splitWs_trim]
      rw [hsp, if_neg hne0]
      simpa [mnemonicWordCount] using hin
    have hpwne : password ≠ [] := by
      intro h0
      rw [h0] at hpwlen
      exact absurd hpwlen (by decide)
    constructor
    · rw [importWalletFlow, if_neg htrim, if_neg (by simp [hval]), if_neg hpwne,
        if_neg (by omega), if_neg (by simp)]
      have hclean := splitWs_cleanMnemonic m
      simp only [importFromMnemonic, fromMnemonic]
      rw [if_pos]
      constructor
      · rw [hclean, List.length_map]
        simpa [mnemonicWordCount] using hin
      · intro w hw
        rw [hclean] at hw
        exact hwl w hw
    · intro strength randomWords
      rfl

/-- Witness for C8: a one-word phrase is rejected by the keyring import, and
a 12-word wordlist phrase passes the import flow and yields the fixed-path
wallet. -/
theorem c8_import_mnemonic_witness :
    importFromMnemonic [] ['a'] = .error invalidMnemonicMsg ∧
    importWalletFlow [['a', 'b']] sampleMnemonic12 samplePassword samplePassword =
      .ok ⟨cleanMnemonic sampleMnemonic12, creataHrp, evmosHdPath⟩ :=
  ⟨((c8_import_mnemonic [] ['a'] samplePassword).1 (by decide)).1,
   ((c8_import_mnemonic [['a', 'b']] sampleMnemonic12 samplePassword).2
     (by decide) (by decide) (by decide)).1⟩

/-- C10: `generateWallet` ignores its `strength` argument — for every value
of `strength` (including 128, 160, 192, 224) the wallet is identical to the
one generated at any other strength from the same randomness, and its
mnemonic always has exactly 24 words, because the word count passed to the
external generator is hard-coded to 24. -/
theorem c10_generate_ignores_strength (strength : Nat) (randomWords : List (List Char))
    (hlen : 24 ≤ randomWords.length)
    (hwords : ∀ w ∈ randomWords, w ≠ [] ∧ ∀ c ∈ w, isSpaceChar c = false) :
    mnemonicWordCount (generateWallet strength randomWords).mnemonic = 24 ∧
    generateWallet strength randomWords = generateWallet 128 randomWords ∧
    generateWallet strength randomWords = generateWallet 160 randomWords ∧
    generateWallet strength randomWords = generateWallet 192 randomWords ∧
    generateWallet strength randomWords = generateWallet 224 randomWords ∧
    generateWallet strength randomWords = generateWallet 256 randomWords := by
  refine ⟨?_, rfl, rfl, rfl, rfl, rfl⟩
  unfold mnemonicWordCount generateWallet hdWalletGenerate
  rw [splitWs_joinWords]
  · rw [List.length_take]
    omega
  · intro w hw
    exact hwords w (List.take_subset _ _ hw)

/-- Witness for C10 at strength 128 with 30 words of randomness. -/
theorem c10_generate_witness :
    mnemonicWordCount (generateWallet 128 (List.replicate 30 ['w'])).mnemonic = 24 :=
  (c10_generate_ignores_strength 128 (List.replicate 30 ['w']) (by decide)
    (by decide)).1


end Creata
